import Mathlib

/-!
Verification development for the checkpoint-driven self-play training and
Nash-averaging pipeline (`nash_experiment.py`) and the log-odds transform of
the visualization prototype (`prototype_app.py`).

The embedding models the pipeline's control flow and persistence exactly as
written in the source. Training itself, the environment, and regym's
tournament evaluator / Nash solver are external collaborators: they are
abstracted as function parameters, while every piece of control logic that
lives in the repository (sorting of the checkpoint list, segment-length
arithmetic, save-path construction, the order and batching of persistence
operations, the dictionary and table constructions, and the hard-coded
log-odds flag) is translated faithfully.
-/

/-- Python `sorted` on a list of integers (ascending, stable), as used by
`training_phase`: `for target_iteration in sorted(checkpoint_at_iterations)`. -/
def pySorted (l : List ℤ) : List ℤ := l.mergeSort

/-- Save path of a frozen policy, from `training_phase` / `save_trained_policy`:
`f'{trained_policy_save_directory}/{target_iteration}_iterations.pt'`. -/
def savePathFor (basePath : String) (iter : ℤ) : String :=
  basePath ++ "/" ++ toString iter ++ "_iterations.pt"

/-- State threaded through the checkpoint loop of `training_phase`:
`completed_iterations`, the current `training_agent`, the accumulated
`agents_to_benchmark` population, the snapshot files written so far, the
boundaries visited so far, and the successive `next_training_iterations`
segment lengths. -/
structure TPState (α : Type) where
  completed : ℤ
  agent : α
  population : List α
  savedPaths : List String
  visited : List ℤ
  segmentLengths : List ℤ

/-- One iteration of the loop body of `training_phase`: compute
`next_training_iterations = target_iteration - completed_iterations`, train for
that many iterations, advance `completed_iterations`, save the trained policy
to the iteration-determined path, and append the trained agent's clone to the
benchmark population. `train` abstracts `train_for_given_iterations`
(agent, segment length, completed iterations so far). -/
def tpStep {α : Type} (train : α → ℤ → ℤ → α) (basePath : String)
    (s : TPState α) (target : ℤ) : TPState α :=
  let delta := target - s.completed
  let trained := train s.agent delta s.completed
  { completed := s.completed + delta
    agent := trained
    population := s.population ++ [trained]
    savedPaths := s.savedPaths ++ [savePathFor basePath target]
    visited := s.visited ++ [target]
    segmentLengths := s.segmentLengths ++ [delta] }

/-- Initial state of `training_phase`: `completed_iterations = 0`, empty
population and no snapshots saved. -/
def initTP {α : Type} (agent : α) : TPState α :=
  { completed := 0, agent := agent, population := [], savedPaths := []
    visited := [], segmentLengths := [] }

/-- Folding the loop body of `training_phase` over a list of boundaries. -/
def tpRun {α : Type} (train : α → ℤ → ℤ → α) (basePath : String)
    (s : TPState α) (targets : List ℤ) : TPState α :=
  targets.foldl (tpStep train basePath) s

/-- Embedding of `training_phase` (lines 82-124 of `nash_experiment.py`): the
checkpoint list is silently sorted (`sorted(checkpoint_at_iterations)`) and the
loop body runs once per element, with no validation of any kind. -/
def training_phase {α : Type} (train : α → ℤ → ℤ → α) (basePath : String)
    (agent : α) (checkpoint_at_iterations : List ℤ) : TPState α :=
  tpRun train basePath (initTP agent) (pySorted checkpoint_at_iterations)

/-- Trivial concrete training function used to evaluate the scheduler's control
flow on concrete inputs. -/
def constTrain : Unit → ℤ → ℤ → Unit := fun _ _ _ => ()

/-- Numpy slice `M[:i, :i]` on a matrix represented as a list of rows. -/
def npSlice (m : List (List ℚ)) (i : ℕ) : List (List ℚ) :=
  (m.take i).map (fun row => row.take i)

/-- From `compute_optimality_metrics`:
`[winrate_matrix[:i, :i] for i in range(1, len(winrate_matrix) + 1)]`. -/
def winrate_submatrices (m : List (List ℚ)) : List (List (List ℚ)) :=
  (List.range m.length).map (fun i => npSlice m (i + 1))

/-- Embedding of `compute_optimality_metrics`: the winrate matrix `m` comes
from regym's `compute_winrate_matrix_metagame` (external), and `solve`
abstracts regym's `compute_nash_averaging`, whose first argument is the
`perform_logodds_transformation` flag. The call site passes the literal `True`
for every submatrix. -/
def compute_optimality_metrics (solve : Bool → List (List ℚ) → List ℚ × List ℚ)
    (m : List (List ℚ)) : List (List (List ℚ)) × List (List ℚ × List ℚ) :=
  (winrate_submatrices m, (winrate_submatrices m).map (fun s => solve true s))

/-- Self-play scheme variants named in the specification. -/
inductive SelfPlaySchemeKind : Type
  | naive : SelfPlaySchemeKind
  | fullHistory : SelfPlaySchemeKind
  | iteratedNashResponse : SelfPlaySchemeKind

/-- Modelled from the spec: the configuration object of spec section 6 with its
recognized options, `use_logodds` among them. The code under `src/` reads no
such option: `load_configs` extracts only the `experiment` and `agents`
sections, and `compute_optimality_metrics` hard-codes the transformation
flag to `True`. -/
structure Config where
  checkpoint_iterations : List ℤ
  episodes_per_matchup : ℕ
  use_logodds : Bool
  seed : ℤ
  self_play_scheme : SelfPlaySchemeKind

/-- Metrics stage of `experiment` viewed as a function of the run
configuration: no field of the configuration reaches the log-odds flag, which
is the literal `True` at the call site in `compute_optimality_metrics`. -/
def experimentMetrics (cfg : Config)
    (solve : Bool → List (List ℚ) → List ℚ × List ℚ)
    (m : List (List ℚ)) : List (List (List ℚ)) × List (List ℚ × List ℚ) :=
  compute_optimality_metrics solve m

/-- Solver instrumented to reveal which flag it was called with. -/
def flagProbe : Bool → List (List ℚ) → List ℚ × List ℚ :=
  fun b _ => (if b then [1] else [0], [])

/-- Concrete configuration whose `use_logodds` option is `false`. -/
def cfgNoLogodds : Config :=
  { checkpoint_iterations := [0], episodes_per_matchup := 1
    use_logodds := false, seed := 0, self_play_scheme := .naive }

/-- Observable I/O actions of one run of `experiment`. -/
inductive Event : Type
  | trainSegment : ℤ → Event
  | saveSnapshot : String → Event
  | computeMetrics : Event
  | writeWinrateMatrices : String → Event
  | writeNashTable : String → Event

/-- Recognizes a training-segment action. -/
def isTrainSegment : Event → Bool
  | .trainSegment _ => true
  | _ => false

/-- Recognizes a write of a checkpoint-result record (winrate matrices or Nash
distribution table). Snapshot saves are policy files, not result records. -/
def isResultWrite : Event → Bool
  | .writeWinrateMatrices _ => true
  | .writeNashTable _ => true
  | _ => false

/-- Events produced per boundary by the loop of `training_phase`: a training
segment followed by the snapshot save. -/
def segEvents (basePath : String) (targets : List ℤ) : List Event :=
  targets.flatMap
    (fun t => [Event.trainSegment t, Event.saveSnapshot (savePathFor basePath t)])

/-- Events of `training_phase` on its actual (sorted) visit order. -/
def trainingEvents (basePath : String) (l : List ℤ) : List Event :=
  segEvents basePath (pySorted l)

/-- Events of `save_results`: one write of the winrate-matrix pickle followed
by one write of the Nash-evolution CSV, both under `save_path`. -/
def saveResultsEvents (savePath : String) : List Event :=
  [Event.writeWinrateMatrices (savePath ++ "/winrate_matrices.pickle"),
   Event.writeNashTable (savePath ++ "/evolution_maxent_nash.csv")]

/-- I/O trace of `experiment` (lines 24-43): all of training (with its
per-checkpoint snapshot saves), then the metric computation, then a single
final `save_results` to `f'{base_path}/results'`. -/
def experimentEvents (basePath : String) (l : List ℤ) : List Event :=
  trainingEvents basePath l ++ [Event.computeMetrics]
    ++ saveResultsEvents (basePath ++ "/results")

/-- Walks a trace counting training segments and result-record writes; it
holds when every training segment starts only after at least as many result
writes have completed as training segments already finished, i.e. when each
checkpoint's record is persisted before the next checkpoint's training runs. -/
def persistedGo : List Event → ℕ → ℕ → Bool
  | [], _, _ => true
  | e :: rest, trains, writes =>
    if isTrainSegment e then
      decide (trains ≤ writes) && persistedGo rest (trains + 1) writes
    else if isResultWrite e then
      persistedGo rest trains (writes + 1)
    else
      persistedGo rest trains writes

/-- Per-checkpoint persistence discipline of a whole trace. -/
def persistedEachCheckpoint (tr : List Event) : Bool :=
  persistedGo tr 0 0

/-- Pads a row to a fixed column count with missing values (`none`), as pandas
does when building a `DataFrame` from ragged rows. -/
def padRow (ncols : ℕ) (row : List ℚ) : List (Option ℚ) :=
  row.map some ++ List.replicate (ncols - row.length) none

/-- Pandas `DataFrame(data, index=..., columns=...)` on a list of ragged rows:
rows shorter than the column count are padded with missing values; a row wider
than the column count, or a row-count/index-length mismatch, raises. -/
def dataFrameOfRows (rows : List (List ℚ)) (index : List ℤ) (ncols : ℕ) :
    Except String (List (ℤ × List (Option ℚ))) :=
  if rows.length = index.length ∧ ∀ r ∈ rows, r.length ≤ ncols then
    Except.ok (index.zip (rows.map (padRow ncols)))
  else
    Except.error "dimension mismatch"

/-- Embedding of `save_evolution_maxent_nash_and_nash_averaging`:
`maxent_nash_list, nash_averaging_list = zip(*evolution)` picks the first
component of every pair, and the table is
`pd.DataFrame(maxent_nash_list, index=checkpoint_at_iterations,
columns=list(range(len(checkpoint_at_iterations))))`. -/
def save_evolution_table (evolution : List (List ℚ × List ℚ))
    (checkpoint_at_iterations : List ℤ) :
    Except String (List (ℤ × List (Option ℚ))) :=
  dataFrameOfRows (evolution.map Prod.fst) checkpoint_at_iterations
    checkpoint_at_iterations.length

/-- Python dict insertion: a repeated key keeps its original position and
takes the new value; a new key is appended. -/
def dictInsert {β : Type} (k : ℤ) (v : β) : List (ℤ × β) → List (ℤ × β)
  | [] => [(k, v)]
  | p :: rest => if p.1 = k then (k, v) :: rest else p :: dictInsert k v rest

/-- Folding dict insertions over a pair list starting from a given dict. -/
def foldIns {β : Type} (d : List (ℤ × β)) (ps : List (ℤ × β)) : List (ℤ × β) :=
  ps.foldl (fun acc p => dictInsert p.1 p.2 acc) d

/-- Python dict comprehension over a pair list, e.g.
`{checkpoint: m for checkpoint, m in zip(...)}`. -/
def dictOfPairs {β : Type} (ps : List (ℤ × β)) : List (ℤ × β) :=
  foldIns [] ps

/-- Python dict lookup. -/
def dictLookup {β : Type} (k : ℤ) : List (ℤ × β) → Option β
  | [] => none
  | p :: rest => if p.1 = k then some p.2 else dictLookup k rest

/-- Embedding of `save_winrate_matrices`: the persisted pickle holds
`{checkpoint: m for checkpoint, m in zip(checkpoint_at_iterations,
winrate_submatrices)}`. -/
def save_winrate_matrices (checkpoint_at_iterations : List ℤ)
    (subs : List (List (List ℚ))) : List (ℤ × List (List ℚ)) :=
  dictOfPairs (checkpoint_at_iterations.zip subs)

/-- Generator state standing for the numpy and torch global generators. -/
structure Rng where
  state : ℤ

/-- Effect of `np.random.seed(seed)` and `torch.manual_seed(seed)` at the top
of `experiment` (lines 29-30): the generator state becomes a function of the
seed alone. -/
def seedRngs (seed : ℤ) : Rng := ⟨seed⟩

/-- Adapts a generator-threading training function to the state type used by
`training_phase`: the training agent carries the generator state along. -/
def stepWithRng {α : Type} (train : Rng → α → ℤ → ℤ → α × Rng) :
    α × Rng → ℤ → ℤ → α × Rng :=
  fun p delta completed => train p.2 p.1 delta completed

/-- Artifacts of one run of `experiment`: snapshot files, the winrate-matrix
pickle contents, the Nash-evolution table, and log text. -/
structure ExperimentOutputs where
  savedPaths : List String
  winrateStore : List (ℤ × List (List ℚ))
  nashTable : Except String (List (ℤ × List (Option ℚ)))
  logLines : List String

/-- Embedding of `experiment` (lines 24-43): seed the generators from `seed`,
run `training_phase`, evaluate the winrate matrix over the resulting
population (`evalMatrix` abstracts regym's `compute_winrate_matrix_metagame`,
consuming the generator state, the population and `benchmarking_episodes`),
compute the optimality metrics, and persist the results. `wallClock` stands
for `time.time()`, which the code uses only to produce log text. -/
def experiment {α : Type} (train : Rng → α → ℤ → ℤ → α × Rng)
    (evalMatrix : Rng → List α → ℕ → List (List ℚ))
    (solve : Bool → List (List ℚ) → List ℚ × List ℚ)
    (agent : α) (checkpoint_at_iterations : List ℤ) (basePath : String)
    (seed : ℤ) (benchmarkingEpisodes : ℕ) (wallClock : ℕ) : ExperimentOutputs :=
  let tp := training_phase (stepWithRng train) basePath (agent, seedRngs seed)
    checkpoint_at_iterations
  let m := evalMatrix tp.agent.2 (tp.population.map Prod.fst) benchmarkingEpisodes
  let metrics := compute_optimality_metrics solve m
  { savedPaths := tp.savedPaths
    winrateStore := save_winrate_matrices checkpoint_at_iterations metrics.1
    nashTable := save_evolution_table metrics.2 checkpoint_at_iterations
    logLines := ["Total duration: " ++ toString wallClock ++ " seconds"] }

/-- Persisted (durable) artifacts of a run, excluding log text. -/
def persistedOutputs (o : ExperimentOutputs) :
    List String × List (ℤ × List (List ℚ))
      × Except String (List (ℤ × List (Option ℚ))) :=
  (o.savedPaths, o.winrateStore, o.nashTable)

/-- Log-odds transform applied entrywise in `single_empirical_game_view`
(`prototype_app.py` line 45): `np.log(winrate_matrix / (1 - winrate_matrix))`. -/
noncomputable def logit (p : ℝ) : ℝ := Real.log (p / (1 - p))

/-- Logistic function, the inverse of the log-odds transform. -/
noncomputable def inverse_logit (x : ℝ) : ℝ := 1 / (1 + Real.exp (-x))

theorem tpRun_cons {α : Type} (train : α → ℤ → ℤ → α) (b : String)
    (s : TPState α) (x : ℤ) (l : List ℤ) :
    tpRun train b s (x :: l) = tpRun train b (tpStep train b s x) l := rfl

theorem tpStep_completed {α : Type} (train : α → ℤ → ℤ → α) (b : String)
    (s : TPState α) (x : ℤ) : (tpStep train b s x).completed = x := by
  simp [tpStep]

theorem tpRun_visited {α : Type} (train : α → ℤ → ℤ → α) (b : String) :
    ∀ (l : List ℤ) (s : TPState α), (tpRun train b s l).visited = s.visited ++ l := by
  intro l
  induction l with
  | nil => intro s; simp [tpRun]
  | cons x l ih =>
    intro s
    rw [tpRun_cons, ih]
    simp [tpStep]

theorem tpRun_savedPaths {α : Type} (train : α → ℤ → ℤ → α) (b : String) :
    ∀ (l : List ℤ) (s : TPState α),
      (tpRun train b s l).savedPaths = s.savedPaths ++ l.map (savePathFor b) := by
  intro l
  induction l with
  | nil => intro s; simp [tpRun]
  | cons x l ih =>
    intro s
    rw [tpRun_cons, ih]
    simp [tpStep]

theorem tpRun_population_length {α : Type} (train : α → ℤ → ℤ → α) (b : String) :
    ∀ (l : List ℤ) (s : TPState α),
      (tpRun train b s l).population.length = s.population.length + l.length := by
  intro l
  induction l with
  | nil => intro s; simp [tpRun]
  | cons x l ih =>
    intro s
    rw [tpRun_cons, ih]
    simp [tpStep]
    omega

theorem tpRun_completed {α : Type} (train : α → ℤ → ℤ → α) (b : String) :
    ∀ (l : List ℤ) (s : TPState α),
      (tpRun train b s l).completed = l.getLastD s.completed := by
  intro l
  induction l with
  | nil => intro s; simp [tpRun]
  | cons x l ih =>
    intro s
    rw [tpRun_cons, ih]
    have hx : (tpStep train b s x).completed = x := tpStep_completed train b s x
    rw [hx, List.getLastD_cons]

theorem tpRun_segmentLengths_nonneg {α : Type} (train : α → ℤ → ℤ → α) (b : String) :
    ∀ (l : List ℤ) (s : TPState α), List.Sorted (· ≤ ·) l →
      (∀ x ∈ l, s.completed ≤ x) →
      ∀ d ∈ (tpRun train b s l).segmentLengths, d ∈ s.segmentLengths ∨ 0 ≤ d := by
  intro l
  induction l with
  | nil => intro s _ _ d hd; exact Or.inl hd
  | cons x l ih =>
    intro s hsorted hbound d hd
    have hx : s.completed ≤ x := hbound x (by simp)
    have hsorted' := (List.sorted_cons.1 hsorted).2
    have hrest : ∀ y ∈ l, (tpStep train b s x).completed ≤ y := by
      intro y hy
      rw [tpStep_completed]
      exact (List.sorted_cons.1 hsorted).1 y hy
    rw [tpRun_cons] at hd
    rcases ih (tpStep train b s x) hsorted' hrest d hd with hmem | hpos
    · simp [tpStep] at hmem
      rcases hmem with hmem' | rfl
      · exact Or.inl hmem'
      · exact Or.inr (by omega)
    · exact Or.inr hpos

theorem le_getLastD_self : ∀ (l : List ℤ) (a : ℤ),
    (∀ y ∈ l, a ≤ y) → List.Sorted (· ≤ ·) l → a ≤ l.getLastD a := by
  intro l
  induction l with
  | nil => intro a _ _; simp
  | cons b l ih =>
    intro a hb hsorted
    rw [List.getLastD_cons]
    have hab : a ≤ b := hb b (by simp)
    have := ih b (List.sorted_cons.1 hsorted).1 (List.sorted_cons.1 hsorted).2
    omega

theorem sorted_le_getLastD : ∀ (l : List ℤ), List.Sorted (· ≤ ·) l →
    ∀ x ∈ l, ∀ d : ℤ, x ≤ l.getLastD d := by
  intro l
  induction l with
  | nil => intro _ x hx; simp at hx
  | cons a l ih =>
    intro hsorted x hx d
    rw [List.getLastD_cons]
    rcases List.mem_cons.1 hx with rfl | hx'
    · exact le_getLastD_self l x (List.sorted_cons.1 hsorted).1
        (List.sorted_cons.1 hsorted).2
    · exact ih (List.sorted_cons.1 hsorted).2 x hx' a

theorem getLastD_mem_of_ne_nil : ∀ (l : List ℤ), l ≠ [] → ∀ d : ℤ, l.getLastD d ∈ l := by
  intro l
  induction l with
  | nil => intro h; exact absurd rfl h
  | cons a l ih =>
    intro _ d
    rw [List.getLastD_cons]
    by_cases hl : l = []
    · subst hl; simp
    · exact List.mem_cons_of_mem a (ih hl a)

theorem pySorted_perm (l : List ℤ) : List.Perm (pySorted l) l :=
  List.mergeSort_perm l _

theorem pySorted_sorted (l : List ℤ) : List.Sorted (· ≤ ·) (pySorted l) :=
  List.sorted_mergeSort' l

theorem pySorted_nil : pySorted [] = [] :=
  List.Perm.eq_nil (pySorted_perm [])

unseal List.merge List.mergeSort in
/-- C1: the claim states that the scheduler raises `InvalidScheduleError` on an
empty or duplicated checkpoint list before any training executes, and does not
silently sort the input. The code has no validation at all: on the duplicated
list `[3, 3]` it executes two training segments (of lengths 3 and 0) and
produces two snapshots, and on `[20, 10]` it silently sorts the boundaries. -/
theorem C1_counterexample :
    (training_phase constTrain "base" () [3, 3]).segmentLengths = [3, 0] ∧
    (training_phase constTrain "base" () [3, 3]).population.length = 2 ∧
    (training_phase constTrain "base" () [20, 10]).visited = [10, 20] := by
  decide

/-- C1 (amended): `training_phase` performs no validation and raises no error:
it silently sorts the checkpoint list before visiting it, keeps duplicate
entries (one training segment and one snapshot per occurrence), and treats the
empty list as a schedule with no training segments and an empty population. -/
theorem C1_amended_no_validation {α : Type} (train : α → ℤ → ℤ → α) (b : String)
    (agent : α) (l : List ℤ) :
    (training_phase train b agent l).visited = pySorted l ∧
    (training_phase train b agent l).population.length = l.length ∧
    (training_phase train b agent []).population = [] ∧
    (training_phase train b agent []).segmentLengths = [] := by
  refine ⟨?_, ?_, ?_, ?_⟩
  · rw [training_phase, tpRun_visited]; simp [initTP]
  · rw [training_phase, tpRun_population_length]
    simp [initTP]
    exact (pySorted_perm l).length_eq
  · rw [training_phase, pySorted_nil]; rfl
  · rw [training_phase, pySorted_nil]; rfl

/-- C2: for every valid checkpoint list (strictly ascending, deduplicated,
non-negative integers) of length m, `training_phase` persists exactly m
snapshots, one per boundary, in ascending iteration order, each written to the
path determined solely by the base path and the boundary's iteration number. -/
theorem C2_snapshots_per_boundary {α : Type} (train : α → ℤ → ℤ → α) (b : String)
    (agent : α) (l : List ℤ) (hsorted : List.Sorted (· < ·) l)
    (hnn : ∀ x ∈ l, 0 ≤ x) :
    (training_phase train b agent l).savedPaths = l.map (savePathFor b) ∧
    (training_phase train b agent l).savedPaths.length = l.length ∧
    (training_phase train b agent l).visited = l := by
  have hle : List.Sorted (· ≤ ·) l := hsorted.imp le_of_lt
  have hps : pySorted l = l := List.mergeSort_eq_self hle
  have h1 : (training_phase train b agent l).savedPaths = l.map (savePathFor b) := by
    rw [training_phase, hps, tpRun_savedPaths]
    simp [initTP]
  refine ⟨h1, ?_, ?_⟩
  · rw [h1]; simp
  · rw [training_phase, hps, tpRun_visited]; simp [initTP]

/-- C2 witness: the valid list `[0, 10, 20]` yields exactly three snapshots at
the three iteration-determined paths, visited in ascending order. -/
theorem C2_witness :
    (training_phase constTrain "base" () [0, 10, 20]).savedPaths
        = [0, 10, 20].map (savePathFor "base") ∧
    (training_phase constTrain "base" () [0, 10, 20]).savedPaths.length
        = [0, 10, 20].length ∧
    (training_phase constTrain "base" () [0, 10, 20]).visited = [0, 10, 20] :=
  C2_snapshots_per_boundary constTrain "base" () [0, 10, 20] (by decide) (by decide)

/-- C9: `training_phase` visits the boundaries in ascending sorted order of the
input list's values, for every input list in any order; and for a list of
distinct non-negative integers, every computed `next_training_iterations`
segment length is non-negative and `completed_iterations` after the final
boundary equals the maximum element of the list. -/
theorem C9_visits_sorted_order {α : Type} (train : α → ℤ → ℤ → α) (b : String)
    (agent : α) (l : List ℤ) :
    (training_phase train b agent l).visited = pySorted l ∧
    List.Sorted (· ≤ ·) (training_phase train b agent l).visited ∧
    (l.Nodup → (∀ x ∈ l, 0 ≤ x) →
      (∀ d ∈ (training_phase train b agent l).segmentLengths, 0 ≤ d) ∧
      (l ≠ [] →
        (training_phase train b agent l).completed ∈ l ∧
        ∀ x ∈ l, x ≤ (training_phase train b agent l).completed)) := by
  have hvis : (training_phase train b agent l).visited = pySorted l := by
    rw [training_phase, tpRun_visited]; simp [initTP]
  refine ⟨hvis, ?_, ?_⟩
  · rw [hvis]; exact pySorted_sorted l
  · intro _ hnn
    have hcompleted : (training_phase train b agent l).completed
        = (pySorted l).getLastD 0 := by
      rw [training_phase, tpRun_completed]
      rfl
    constructor
    · intro d hd
      have hseg := tpRun_segmentLengths_nonneg train b (pySorted l) (initTP agent)
        (pySorted_sorted l)
        (by
          intro x hx
          have : x ∈ l := (pySorted_perm l).mem_iff.1 hx
          exact hnn x this)
        d (by rw [training_phase] at hd; exact hd)
      rcases hseg with hmem | hpos
      · simp [initTP] at hmem
      · exact hpos
    · intro hne
      have hpne : pySorted l ≠ [] := by
        intro hcon
        have := (pySorted_perm l).length_eq
        rw [hcon] at this
        exact hne (List.eq_nil_of_length_eq_zero this.symm)
      constructor
      · rw [hcompleted]
        exact (pySorted_perm l).mem_iff.1 (getLastD_mem_of_ne_nil (pySorted l) hpne 0)
      · intro x hx
        rw [hcompleted]
        exact sorted_le_getLastD (pySorted l) (pySorted_sorted l) x
          ((pySorted_perm l).mem_iff.2 hx) 0

/-- C9 witness: on the unsorted distinct non-negative list `[2, 0, 1]`, the
visit order is the ascending sort, all segment lengths are non-negative and
the final completed iteration count is the maximum element 2. -/
theorem C9_witness :
    (training_phase constTrain "base" () [2, 0, 1]).visited = pySorted [2, 0, 1] ∧
    List.Sorted (· ≤ ·) (training_phase constTrain "base" () [2, 0, 1]).visited ∧
    (∀ d ∈ (training_phase constTrain "base" () [2, 0, 1]).segmentLengths, 0 ≤ d) ∧
    (training_phase constTrain "base" () [2, 0, 1]).completed ∈ [2, 0, 1] ∧
    (∀ x ∈ [2, 0, 1], x ≤ (training_phase constTrain "base" () [2, 0, 1]).completed) := by
  have h := C9_visits_sorted_order constTrain "base" () [2, 0, 1]
  have h2 := h.2.2 (by decide) (by decide)
  exact ⟨h.1, h.2.1, h2.1, (h2.2 (by decide)).1, (h2.2 (by decide)).2⟩

theorem npSlice_npSlice (m : List (List ℚ)) (k j : ℕ) (h : k ≤ j) :
    npSlice (npSlice m j) k = npSlice m k := by
  have hmin : min k j = k := Nat.min_eq_left h
  simp only [npSlice, ← List.map_take, List.take_take, List.map_map, hmin]
  congr 1
  funext r
  simp [Function.comp, List.take_take, hmin]

theorem winrate_submatrices_length (m : List (List ℚ)) :
    (winrate_submatrices m).length = m.length := by
  simp [winrate_submatrices]

theorem winrate_submatrices_get (m : List (List ℚ)) (i : ℕ)
    (hi : i < (winrate_submatrices m).length) :
    (winrate_submatrices m).get ⟨i, hi⟩ = npSlice m (i + 1) := by
  simp [winrate_submatrices, List.get_eq_getElem]

/-- C3: the winrate submatrix recorded at checkpoint k is the top-left k-by-k
block of the full matrix, and equals the top-left k-by-k block of the
checkpoint-(k+1) submatrix; the whole family is produced by one evaluation of
the frozen population (`compute_winrate_matrix_metagame` is called once), so
values at later checkpoints are restrictions of the same matrix. -/
theorem C3_prefix_monotonicity (m : List (List ℚ)) (k : ℕ)
    (h1 : 1 ≤ k) (hk : k ≤ (winrate_submatrices m).length) :
    (winrate_submatrices m).get ⟨k - 1, by omega⟩ = npSlice m k ∧
    ∀ hk2 : k < (winrate_submatrices m).length,
      (winrate_submatrices m).get ⟨k - 1, by omega⟩
        = npSlice ((winrate_submatrices m).get ⟨k, hk2⟩) k := by
  have e1 : (winrate_submatrices m).get ⟨k - 1, by omega⟩ = npSlice m k := by
    rw [winrate_submatrices_get m (k - 1) (by omega)]
    congr 1
    omega
  refine ⟨e1, ?_⟩
  intro hk2
  rw [e1, winrate_submatrices_get m k hk2, npSlice_npSlice m k (k + 1) (by omega)]

/-- C3 witness: on a concrete 2-by-2 matrix, the checkpoint-1 submatrix is the
top-left 1-by-1 block of both the full matrix and the checkpoint-2 submatrix. -/
theorem C3_witness :
    (winrate_submatrices [[(1:ℚ), 0], [0, 1]]).get ⟨0, by decide⟩
        = npSlice [[(1:ℚ), 0], [0, 1]] 1 ∧
    (winrate_submatrices [[(1:ℚ), 0], [0, 1]]).get ⟨0, by decide⟩
        = npSlice ((winrate_submatrices [[(1:ℚ), 0], [0, 1]]).get ⟨1, by decide⟩) 1 := by
  have h := C3_prefix_monotonicity [[(1:ℚ), 0], [0, 1]] 1 (by decide) (by decide)
  exact ⟨h.1, h.2 (by decide)⟩

theorem segEvents_no_resultWrite (b : String) :
    ∀ ts : List ℤ, ∀ e ∈ segEvents b ts, isResultWrite e = false := by
  intro ts
  induction ts with
  | nil => intro e he; simp [segEvents] at he
  | cons x ts ih =>
    intro e he
    rw [segEvents, List.flatMap_cons] at he
    rcases List.mem_append.1 he with h1 | h2
    · rcases List.mem_cons.1 h1 with rfl | h1'
      · rfl
      · rcases List.mem_cons.1 h1' with rfl | h1''
        · rfl
        · simp at h1''
    · exact ih e h2

theorem segEvents_no_trainSegment_metrics :
    isTrainSegment Event.computeMetrics = false := rfl

theorem takeWhile_append_of_all {γ : Type} (p : γ → Bool) :
    ∀ (l₁ l₂ : List γ), (∀ e ∈ l₁, p e = true) →
      (l₁ ++ l₂).takeWhile p = l₁ ++ l₂.takeWhile p := by
  intro l₁
  induction l₁ with
  | nil => intro l₂ _; simp
  | cons x l₁ ih =>
    intro l₂ hall
    have hx : p x = true := hall x (by simp)
    simp only [List.cons_append, List.takeWhile_cons, hx, if_true]
    rw [ih l₂ (fun e he => hall e (by simp [he]))]

unseal List.merge List.mergeSort in
/-- C4: the claim states that checkpoint records (winrate submatrix and Nash
distribution) are persisted per checkpoint, as each checkpoint completes. In
the code nothing is persisted until after all training and evaluation: on the
two-checkpoint schedule `[1, 2]` the second training segment starts before any
result-record write has happened, so the per-checkpoint persistence
discipline is violated. -/
theorem C4_counterexample :
    persistedEachCheckpoint (experimentEvents "b" [1, 2]) = false := by
  decide

/-- C4 (amended): `experiment` persists no result record per checkpoint;
exactly two result-record writes happen (the winrate-matrix pickle and the
Nash-evolution CSV), both in one final `save_results` after every training
segment has run: the training segments of the trace all occur before the first
result write. A crash before that point loses every checkpoint record, while
per-checkpoint snapshot files are written as each checkpoint completes. -/
theorem C4_amended_single_final_write (b : String) (l : List ℤ) :
    (experimentEvents b l).filter isResultWrite = saveResultsEvents (b ++ "/results") ∧
    ((experimentEvents b l).takeWhile (fun e => !(isResultWrite e))).filter isTrainSegment
      = (experimentEvents b l).filter isTrainSegment := by
  have hall : ∀ e ∈ trainingEvents b l ++ [Event.computeMetrics],
      (fun e => !(isResultWrite e)) e = true := by
    intro e he
    rcases List.mem_append.1 he with h1 | h2
    · have := segEvents_no_resultWrite b (pySorted l) e h1
      simp [this]
    · rcases List.mem_cons.1 h2 with rfl | h2'
      · rfl
      · simp at h2'
  constructor
  · rw [experimentEvents, List.filter_append, List.filter_append]
    have h1 : (trainingEvents b l).filter isResultWrite = [] := by
      apply List.filter_eq_nil_iff.2
      intro e he
      simp [segEvents_no_resultWrite b (pySorted l) e he]
    rw [h1]
    rfl
  · rw [experimentEvents]
    rw [show trainingEvents b l ++ [Event.computeMetrics]
          ++ saveResultsEvents (b ++ "/results")
        = (trainingEvents b l ++ [Event.computeMetrics])
          ++ saveResultsEvents (b ++ "/results") by simp]
    rw [takeWhile_append_of_all _ _ _ hall]
    rw [show (saveResultsEvents (b ++ "/results")).takeWhile
          (fun e => !(isResultWrite e)) = [] by rfl]
    rw [List.append_nil, List.filter_append, List.filter_append]
    rw [show (saveResultsEvents (b ++ "/results")).filter isTrainSegment = [] by rfl]
    simp

/-- C5: the claim states that the log-odds transformation is applied if and
only if the configuration's `use_logodds` option is true. The code hard-codes
`perform_logodds_transformation=True`: with a solver instrumented to reveal
its flag, a run under a configuration whose `use_logodds` is `false` still
calls the solver with `true`, so the output differs from what the
configuration-governed flag would produce. -/
theorem C5_counterexample :
    cfgNoLogodds.use_logodds = false ∧
    (experimentMetrics cfgNoLogodds flagProbe [[1/2]]).2
      ≠ (winrate_submatrices [[1/2]]).map
          (fun s => flagProbe cfgNoLogodds.use_logodds s) := by
  decide

/-- C5 (amended): the log-odds transformation flag passed to the Nash solver is
the literal `True` for every prefix submatrix, independent of the run
configuration: two runs under configurations differing in `use_logodds`
produce identical metrics, and the Nash results are those of the solver called
with flag `true` on every submatrix. -/
theorem C5_amended_hardcoded_flag (cfg cfg' : Config)
    (solve : Bool → List (List ℚ) → List ℚ × List ℚ) (m : List (List ℚ)) :
    experimentMetrics cfg solve m = experimentMetrics cfg' solve m ∧
    (experimentMetrics cfg solve m).1 = winrate_submatrices m ∧
    (experimentMetrics cfg solve m).2
      = (winrate_submatrices m).map (fun s => solve true s) :=
  ⟨rfl, rfl, rfl⟩

/-- C7: the logistic function inverts the log-odds transform used on the
winrate matrix (`np.log(w / (1 - w))` in `prototype_app.py`): for every
probability strictly between the clamp bounds ε and 1-ε (ε non-negative),
`inverse_logit (logit p) = p` exactly. -/
theorem C7_logodds_round_trip (ε p : ℝ) (h0 : 0 ≤ ε) (h1 : ε < p)
    (h2 : p < 1 - ε) : inverse_logit (logit p) = p := by
  have hp0 : 0 < p := lt_of_le_of_lt h0 h1
  have h1p : 0 < 1 - p := by linarith
  have hr : 0 < p / (1 - p) := div_pos hp0 h1p
  rw [inverse_logit, logit, Real.exp_neg, Real.exp_log hr]
  rw [inv_div]
  have hsum : 1 + (1 - p) / p = 1 / p := by
    field_simp
  rw [hsum, one_div, one_div, inv_inv]

/-- C7 witness: the round trip at ε = 1/4 and p = 1/2. -/
theorem C7_witness : inverse_logit (logit (1/2)) = 1/2 :=
  C7_logodds_round_trip (1/4) (1/2) (by norm_num) (by norm_num) (by norm_num)

/-- C8: two runs of `experiment` with identical task/agents (here: identical
abstracted training and evaluation functions), identical checkpoint list,
episode budget and seed produce identical persisted artifacts: the generators
are seeded from the configured seed before training starts, and the only other
ambient input, the wall clock, influences log text but no persisted output. -/
theorem C8_deterministic_given_seed {α : Type} (train : Rng → α → ℤ → ℤ → α × Rng)
    (evalMatrix : Rng → List α → ℕ → List (List ℚ))
    (solve : Bool → List (List ℚ) → List ℚ × List ℚ) (agent : α)
    (cks : List ℤ) (b : String) (seed₁ seed₂ : ℤ) (be : ℕ) (w₁ w₂ : ℕ)
    (h : seed₁ = seed₂) :
    persistedOutputs (experiment train evalMatrix solve agent cks b seed₁ be w₁)
      = persistedOutputs (experiment train evalMatrix solve agent cks b seed₂ be w₂) := by
  subst h
  rfl

/-- C8 witness: two concrete runs with equal seeds and different wall clocks
persist identical artifacts. -/
theorem C8_witness :
    persistedOutputs (experiment (fun r a _ _ => (a, r)) (fun _ _ _ => [[1/2]])
        (fun _ _ => ([1], [1])) () [0, 10] "b" 0 5 3)
      = persistedOutputs (experiment (fun r a _ _ => (a, r)) (fun _ _ _ => [[1/2]])
        (fun _ _ => ([1], [1])) () [0, 10] "b" 0 5 4) :=
  C8_deterministic_given_seed (fun r a _ _ => (a, r)) (fun _ _ _ => [[1/2]])
    (fun _ _ => ([1], [1])) () [0, 10] "b" 0 0 5 3 4 rfl

/-- Concrete evolution series used to witness C6: the maximum-entropy Nash
distribution has length 1 at the first checkpoint and 2 at the second. -/
def evoW : List (List ℚ × List ℚ) := [([1], []), ([1/2, 1/2], [])]

theorem padRow_getD_none (w : ℕ) (row : List ℚ) (j : ℕ) (hj : row.length ≤ j) :
    (padRow w row).getD j none = none := by
  rw [padRow, List.getD_eq_getElem?_getD]
  rw [List.getElem?_append_right (by simpa using hj)]
  rw [List.getElem?_replicate]
  split
  · rfl
  · rfl

/-- C6: the persisted Nash-evolution table is indexed by checkpoint iteration
with one column per population slot; when the Nash distributions of earlier
checkpoints are shorter (length k at the k-th checkpoint), the construction
succeeds with no dimension-mismatch error, every row has exactly one cell per
population slot, and the unused slots of early rows are absent (`none`). -/
theorem C6_nash_table (evolution : List (List ℚ × List ℚ)) (cks : List ℤ)
    (hlen : evolution.length = cks.length)
    (hw : ∀ (i : ℕ) (hi : i < evolution.length),
      ((evolution.get ⟨i, hi⟩).1).length = i + 1) :
    save_evolution_table evolution cks
      = Except.ok (cks.zip ((evolution.map Prod.fst).map (padRow cks.length))) ∧
    (∀ row ∈ evolution.map Prod.fst, (padRow cks.length row).length = cks.length) ∧
    (∀ row ∈ evolution.map Prod.fst, ∀ j : ℕ, row.length ≤ j →
      (padRow cks.length row).getD j none = none) := by
  have hrows : ∀ r ∈ evolution.map Prod.fst, r.length ≤ cks.length := by
    intro r hr
    rcases List.mem_map.1 hr with ⟨p, hp, rfl⟩
    rcases List.mem_iff_get.1 hp with ⟨n, rfl⟩
    rw [hw n.1 n.2]
    have := n.2
    omega
  refine ⟨?_, ?_, ?_⟩
  · rw [save_evolution_table, dataFrameOfRows,
      if_pos ⟨by simpa using hlen, hrows⟩]
  · intro row hrow
    have := hrows row hrow
    simp [padRow]
    omega
  · intro row _ j hj
    exact padRow_getD_none cks.length row j hj

/-- C6 witness: with two checkpoints and Nash distributions of lengths 1 and 2,
the table construction succeeds, the first row is padded to two cells, and its
unused second slot is absent. -/
theorem C6_witness :
    save_evolution_table evoW [10, 20]
      = Except.ok ([10, 20].zip ((evoW.map Prod.fst).map (padRow ([10, (20:ℤ)]).length))) ∧
    (padRow ([10, (20:ℤ)]).length [1]).length = ([10, (20:ℤ)]).length ∧
    (padRow ([10, (20:ℤ)]).length [1]).getD 1 none = none := by
  have h := C6_nash_table evoW [10, 20] (by decide) (by decide)
  exact ⟨h.1, h.2.1 [1] (by decide), h.2.2 [1] (by decide) 1 (by decide)⟩

theorem dictInsert_keys {β : Type} (k : ℤ) (v : β) : ∀ d : List (ℤ × β),
    (dictInsert k v d).map Prod.fst
      = if k ∈ d.map Prod.fst then d.map Prod.fst else d.map Prod.fst ++ [k] := by
  intro d
  induction d with
  | nil => simp [dictInsert]
  | cons p rest ih =>
    by_cases h : p.1 = k
    · simp only [dictInsert, if_pos h, List.map_cons]
      rw [if_pos (by simp [h])]
      rw [h]
    · simp only [dictInsert, if_neg h, List.map_cons, ih]
      by_cases hk : k ∈ rest.map Prod.fst
      · rw [if_pos hk, if_pos (by simp [hk])]
      · rw [if_neg hk, if_neg (by
          simp only [List.mem_cons]
          rintro (hh | hh)
          · exact h hh.symm
          · exact hk hh)]
        simp

theorem dictInsert_mem_keys {β : Type} (k : ℤ) (v : β) (d : List (ℤ × β)) (x : ℤ) :
    x ∈ (dictInsert k v d).map Prod.fst ↔ x = k ∨ x ∈ d.map Prod.fst := by
  rw [dictInsert_keys]
  by_cases hk : k ∈ d.map Prod.fst
  · rw [if_pos hk]
    constructor
    · exact Or.inr
    · rintro (rfl | hx)
      · exact hk
      · exact hx
  · rw [if_neg hk]
    simp [List.mem_append, or_comm]

theorem dictInsert_keys_nodup {β : Type} (k : ℤ) (v : β) (d : List (ℤ × β))
    (h : (d.map Prod.fst).Nodup) : ((dictInsert k v d).map Prod.fst).Nodup := by
  rw [dictInsert_keys]
  by_cases hk : k ∈ d.map Prod.fst
  · rw [if_pos hk]; exact h
  · rw [if_neg hk]
    rw [List.nodup_append]
    refine ⟨h, List.nodup_singleton k, ?_⟩
    intro a ha hb
    simp at hb
    subst hb
    exact hk ha

theorem foldIns_cons {β : Type} (d : List (ℤ × β)) (p : ℤ × β) (ps : List (ℤ × β)) :
    foldIns d (p :: ps) = foldIns (dictInsert p.1 p.2 d) ps := rfl

theorem foldIns_keys_nodup {β : Type} : ∀ (ps d : List (ℤ × β)),
    (d.map Prod.fst).Nodup → ((foldIns d ps).map Prod.fst).Nodup := by
  intro ps
  induction ps with
  | nil => intro d h; exact h
  | cons p ps ih =>
    intro d h
    rw [foldIns_cons]
    exact ih _ (dictInsert_keys_nodup p.1 p.2 d h)

theorem foldIns_mem_keys {β : Type} : ∀ (ps d : List (ℤ × β)) (x : ℤ),
    x ∈ (foldIns d ps).map Prod.fst ↔ x ∈ d.map Prod.fst ∨ x ∈ ps.map Prod.fst := by
  intro ps
  induction ps with
  | nil => intro d x; simp [foldIns]
  | cons p ps ih =>
    intro d x
    rw [foldIns_cons, ih, dictInsert_mem_keys]
    simp only [List.map_cons, List.mem_cons]
    tauto

theorem dictOfPairs_length {β : Type} (ps : List (ℤ × β)) :
    (dictOfPairs ps).length = (ps.map Prod.fst).dedup.length := by
  have hnodup : ((dictOfPairs ps).map Prod.fst).Nodup :=
    foldIns_keys_nodup ps [] (by simp)
  have hmem : ∀ x, x ∈ (dictOfPairs ps).map Prod.fst ↔ x ∈ ps.map Prod.fst := by
    intro x
    rw [dictOfPairs, foldIns_mem_keys]
    simp
  have hfin : ((dictOfPairs ps).map Prod.fst).toFinset = (ps.map Prod.fst).toFinset := by
    ext x
    simp only [List.mem_toFinset]
    exact hmem x
  have h1 : (dictOfPairs ps).length = ((dictOfPairs ps).map Prod.fst).length := by
    simp
  rw [h1, ← List.toFinset_card_of_nodup hnodup, hfin, List.card_toFinset]

theorem dictLookup_insert {β : Type} (k k' : ℤ) (v : β) : ∀ d : List (ℤ × β),
    dictLookup k (dictInsert k' v d) = if k' = k then some v else dictLookup k d := by
  intro d
  induction d with
  | nil => simp [dictInsert, dictLookup]
  | cons p rest ih =>
    by_cases h : p.1 = k'
    · simp only [dictInsert, if_pos h]
      by_cases hk : k' = k
      · simp [dictLookup, hk]
      · have hpk : ¬ (p.1 = k) := by rw [h]; exact hk
        simp [dictLookup, hk, hpk]
    · simp only [dictInsert, if_neg h]
      by_cases hpk : p.1 = k
      · have hk : ¬ (k' = k) := fun hh => h (hpk.trans hh.symm)
        simp [dictLookup, hpk, hk]
      · simp only [dictLookup, if_neg hpk, ih]

theorem getLast?_cons_or {β : Type} : ∀ (l : List β) (a : β),
    (a :: l).getLast? = (l.getLast?).or (some a) := by
  intro l
  induction l with
  | nil => intro a; simp
  | cons b l' ih =>
    intro a
    rw [List.getLast?_cons_cons, ih b]
    cases hx : l'.getLast? with
    | none => rfl
    | some x => rfl

theorem foldIns_lookup {β : Type} (k : ℤ) : ∀ (ps d : List (ℤ × β)),
    dictLookup k (foldIns d ps)
      = (((ps.filter (fun p => p.1 == k)).map Prod.snd).getLast?).or (dictLookup k d) := by
  intro ps
  induction ps with
  | nil => intro d; simp [foldIns]
  | cons p ps ih =>
    intro d
    rw [foldIns_cons, ih (dictInsert p.1 p.2 d), dictLookup_insert k p.1 p.2 d]
    by_cases h : p.1 = k
    · rw [if_pos h]
      have hbeq : (p.1 == k) = true := by simp [h]
      simp only [List.filter_cons, hbeq, if_true, List.map_cons, getLast?_cons_or,
        Option.or_assoc]
      rfl
    · rw [if_neg h]
      have hbeq : (p.1 == k) = false := by simp [h]
      simp only [List.filter_cons, hbeq, Bool.false_eq_true, if_false]

/-- C10: when the checkpoint list contains duplicate iteration values,
`save_winrate_matrices` persists exactly one entry per distinct iteration (the
dict comprehension keyed by checkpoint keeps the last submatrix zipped to a
repeated key), so the number of persisted winrate entries is the number of
distinct checkpoint iterations rather than the list length. -/
theorem C10_duplicate_checkpoints (cks : List ℤ) (subs : List (List (List ℚ)))
    (h : cks.length ≤ subs.length) :
    (save_winrate_matrices cks subs).length = cks.dedup.length ∧
    ∀ k : ℤ, dictLookup k (save_winrate_matrices cks subs)
      = (((cks.zip subs).filter (fun p => p.1 == k)).map Prod.snd).getLast? := by
  constructor
  · rw [save_winrate_matrices, dictOfPairs_length, List.map_fst_zip cks subs h]
  · intro k
    rw [save_winrate_matrices, dictOfPairs, foldIns_lookup]
    simp [dictLookup]

/-- C10 witness: on the duplicated checkpoint list `[10, 20, 20]` with three
submatrices, two entries are persisted (one per distinct iteration) and the
entry under key 20 is the last submatrix zipped to 20. -/
theorem C10_witness :
    (save_winrate_matrices [10, 20, 20] [[[1]], [[2]], [[3]]]).length
        = ([10, (20:ℤ), 20]).dedup.length ∧
    dictLookup 20 (save_winrate_matrices [10, 20, 20] [[[1]], [[2]], [[3]]])
        = ((([10, (20:ℤ), 20].zip [[[(1:ℚ)]], [[2]], [[3]]]).filter
            (fun p => p.1 == 20)).map Prod.snd).getLast? := by
  have h := C10_duplicate_checkpoints [10, 20, 20] [[[1]], [[2]], [[3]]] (by decide)
  exact ⟨h.1, h.2 20⟩
